import Mathlib

/-!
Shallow embedding of `warg/kw_passing.py` (signature-merging decorators).

The data model mirrors the runtime metadata the module manipulates:
`inspect.Parameter` (name, kind, default) and `inspect.Signature`
(an ordered list of parameters).  The working parameter mapping built by
`eval_sig_kw_params` is a Python `dict`; since the code can insert a `None`
key and a `None` value into it (`passing_params[var_kw_key] = var_kw` when
no variadic-keyword parameter exists), the mapping is embedded as an
insertion-ordered association list with `Option String` keys and
`Option Param` values, with `dict` semantics for membership, `pop`,
`update` (replace in place if the key is present, else append) and
item assignment.
-/

namespace Warg

/-- The five parameter kinds of `inspect._ParameterKind`. -/
inductive ParamKind where
  | posOnly
  | posOrKw
  | varPos
  | kwOnly
  | varKw
deriving DecidableEq, Repr

/-- Numeric order of `inspect._ParameterKind` (POSITIONAL_ONLY = 0 ... VAR_KEYWORD = 4). -/
def ParamKind.ord : ParamKind → Nat
  | .posOnly => 0
  | .posOrKw => 1
  | .varPos => 2
  | .kwOnly => 3
  | .varKw => 4

/-- An `inspect.Parameter`: name, kind and default value (`none` = `Parameter.empty`).
Default values are abstracted to integers; only presence/absence and identity matter here. -/
structure Param where
  name : String
  kind : ParamKind
  default : Option Int
deriving DecidableEq, Repr

/-- The working parameter mapping of `eval_sig_kw_params`: a Python `dict`
embedded as an insertion-ordered association list.  Keys and values are
optional because the code can store `None` in both positions. -/
abbrev PMap := List (Option String × Option Param)

/-- Python `k in d` membership test. -/
def mapMem (m : PMap) (k : Option String) : Bool :=
  m.any (fun kv => kv.1 = k)

/-- Python `d[k]` lookup (first entry with the key; dict keys are unique). -/
def mapLookup (m : PMap) (k : Option String) : Option (Option Param) :=
  (m.find? (fun kv => kv.1 = k)).map (fun kv => kv.2)

/-- Python `d.pop(k)`: the stored value together with the mapping minus that entry. -/
def mapPop : PMap → Option String → Option Param × PMap
  | [], _ => (none, [])
  | kv :: rest, k =>
    if kv.1 = k then (kv.2, rest)
    else
      let r := mapPop rest k
      (r.1, kv :: r.2)

/-- Python `d[k] = v`: replace in place when the key is present, else append. -/
def mapInsert (m : PMap) (k : Option String) (v : Option Param) : PMap :=
  if mapMem m k then m.map (fun kv => if kv.1 = k then (kv.1, v) else kv)
  else m ++ [(k, v)]

/-- Python `d.update(n)`: item assignment for each entry of `n` in order. -/
def mapUpdate (m n : PMap) : PMap :=
  n.foldl (fun acc kv => mapInsert acc kv.1 kv.2) m

/-- `to_keyword_only` from the source: reclassify POSITIONAL_OR_KEYWORD to
KEYWORD_ONLY and return the parameter; every other kind is returned as is. -/
def to_keyword_only (val : Param) : Param :=
  if val.kind = ParamKind.posOrKw then { val with kind := ParamKind.kwOnly } else val

/-- `dict(passing_sig.parameters)`: the signature as an ordered name-keyed mapping. -/
def initMap (sig : List Param) : PMap :=
  sig.map (fun p => (some p.name, some p))

/-- Loop body of the `var_kw_key` scan: remember the key of any VAR_KEYWORD
entry, keeping the previous candidate otherwise. -/
def scanF (acc : Option String) (kv : Option String × Option Param) : Option String :=
  if kv.2.map Param.kind = some ParamKind.varKw then kv.1 else acc

/-- The `var_kw_key` scan of `eval_sig_kw_params`: iterate the mapping and
remember the key of the last VAR_KEYWORD entry (initially `None`). -/
def varKwKeyScan (m : PMap) : Option String :=
  m.foldl scanF none

/-- The `if var_kw_key in passing_params: var_kw = passing_params.pop(var_kw_key)`
step: the popped value (`None` when no pop happens) and the resulting mapping. -/
def popStep (m : PMap) (k : Option String) : Option Param × PMap :=
  if mapMem m k then mapPop m k else (none, m)

/-- The working mapping of `eval_sig_kw_params` right after the pop step. -/
def workingMap (sig : List Param) : PMap :=
  (popStep (initMap sig) (varKwKeyScan (initMap sig))).2

/-- The `var_kw` reference retained by `eval_sig_kw_params` (popped value or `None`). -/
def poppedVarKw (sig : List Param) : Option Param :=
  (popStep (initMap sig) (varKwKeyScan (initMap sig))).1

/-- The `to_params` comprehension: receiver parameters that have a default and
whose name is not already a key of the working mapping, reclassified. -/
def toParamsOf (receiver_params : List Param) (m : PMap) : PMap :=
  (receiver_params.filter
      (fun p => p.default.isSome && !(mapMem m (some p.name)))).map
    (fun p => (some p.name, some (to_keyword_only p)))

/-- `eval_sig_kw_params` from the source.  Returns the merged working mapping
together with the number of warnings emitted (the passing signature itself is
returned unchanged by the source, so it is not repeated here). -/
def eval_sig_kw_params (passing_sig receiver_params : List Param)
    (keep_from_var_kw : Bool) : PMap × Nat :=
  let var_kw_key := varKwKeyScan (initMap passing_sig)
  let var_kw := poppedVarKw passing_sig
  let passing_params := workingMap passing_sig
  let tp := toParamsOf receiver_params passing_params
  let merged := mapUpdate passing_params tp
  if keep_from_var_kw then
    let merged2 := mapInsert merged var_kw_key var_kw
    let warns :=
      if receiver_params.any (fun p => p.kind = ParamKind.varKw) then 0 else 1
    (merged2, warns)
  else
    (merged, 0)

/-! Rebuilding a signature: `passing_sig.replace(parameters=new_params.values())`.
`inspect.Signature.__init__` validates the parameter sequence: kinds must be
non-decreasing, a positional parameter without a default may not follow one
with a default of the same kind block, and names must be unique.  Iterating a
`None` value raises before validation; all failure modes abort decoration. -/

/-- One step of CPython's `Signature.__init__` validation loop.  The state is
`(top_kind, kind_defaults)`; `none` means the parameter sequence is rejected. -/
def validStep (st : ParamKind × Bool) (p : Param) : Option (ParamKind × Bool) :=
  if p.kind.ord < st.1.ord then none
  else
    let st2 := if st.1.ord < p.kind.ord then (p.kind, false) else st
    if p.kind = ParamKind.posOnly ∨ p.kind = ParamKind.posOrKw then
      if p.default.isSome then some (st2.1, true)
      else if st2.2 then none else some st2
    else some st2

/-- CPython's validation loop over a parameter list. -/
def runValid : (ParamKind × Bool) → List Param → Option (ParamKind × Bool)
  | st, [] => some st
  | st, p :: ps =>
    match validStep st p with
    | none => none
    | some st2 => runValid st2 ps

/-- A parameter sequence is accepted by `inspect.Signature` iff the kind/default
loop succeeds and parameter names are pairwise distinct. -/
def validateParams (ps : List Param) : Bool :=
  (runValid (ParamKind.posOnly, false) ps).isSome
    && decide (List.Nodup (ps.map Param.name))

/-- Collect the values of the working mapping; `none` if any stored value is
`None` (iterating it raises inside `Signature.replace`). -/
def allSome : List (Option Param) → Option (List Param)
  | [] => some []
  | none :: _ => none
  | some p :: rest => (allSome rest).map (fun l => p :: l)

/-- `passing_sig.replace(parameters=new_params.values())`: `some` of the new
parameter list when the rebuild succeeds, `none` when `Signature` raises. -/
def sig_replace (m : PMap) : Option (List Param) :=
  match allSome (m.map (fun kv => kv.2)) with
  | none => none
  | some ps => if validateParams ps then some ps else none

/-! Callables and the decorator entry points. -/

/-- Python runtime types relevant to the module: plain functions, native
(builtin) functions — which `inspect.signature` cannot introspect — and the
tuple type into which `*receiver_funcs` is packed. -/
inductive PyType where
  | functionType
  | builtinFunctionType
  | tupleType
deriving DecidableEq, Repr

/-- A callable object: its runtime type, its declared parameters, its
`__signature__` attribute (initially absent) and an opaque stand-in for its
body, identifying its runtime call behavior. -/
structure PyCallable where
  pyType : PyType
  params : List Param
  sigAttr : Option (List Param)
  behavior : Nat
deriving DecidableEq, Repr

/-- `inspect.signature(c)`: honours `__signature__` when set, else reads the
declared parameters; fails (ValueError) on a non-introspectable native callable. -/
def pySignatureE (c : PyCallable) : Option (List Param) :=
  if c.pyType = PyType.builtinFunctionType then none
  else some (c.sigAttr.getD c.params)

/-- Exceptions that can abort decoration: the decorator's `assert`, the
ValueError of `inspect.signature` on a native callable, and the errors raised
by `Signature.replace` on an invalid parameter sequence or a `None` entry. -/
inductive PyError where
  | assertionError
  | valueError
  | replaceError
deriving DecidableEq, Repr

/-- The runtime type of the packed `*receiver_funcs` argument: always a tuple. -/
def packedArgsType (_receiver_funcs : List PyCallable) : PyType :=
  PyType.tupleType

/-- The decorator's guard, exactly as written in the source:
`assert not isinstance(receiver_funcs, types.BuiltinFunctionType)` — the
`isinstance` test is applied to the packed tuple, not to its elements. -/
def passes_kws_to_assert_ok (receiver_funcs : List PyCallable) : Bool :=
  !(packedArgsType receiver_funcs == PyType.builtinFunctionType)

/-- One loop iteration of `passes_kws_to._func`: merge one receiver's
parameters into the signature and rebuild it. -/
def merge_step (sig receiver_params : List Param) (keep : Bool) :
    Option (List Param) × Nat :=
  let r := eval_sig_kw_params sig receiver_params keep
  (sig_replace r.1, r.2)

/-- The receiver loop of `passes_kws_to._func`, threading the rebuilt
signature through successive receivers and accumulating warnings.  A raised
exception aborts the loop (warnings already emitted are kept). -/
def merge_chain : List Param → List PyCallable → Bool → Except PyError (List Param) × Nat
  | sig, [], _ => (Except.ok sig, 0)
  | sig, r :: rs, keep =>
    match pySignatureE r with
    | none => (Except.error PyError.valueError, 0)
    | some rsig =>
      match merge_step sig rsig keep with
      | (none, w) => (Except.error PyError.replaceError, w)
      | (some s2, w) =>
        let rest := merge_chain s2 rs keep
        (rest.1, w + rest.2)

/-- `passes_kws_to(*receiver_funcs, keep_from_var_kw)(passing_func)`: run the
assert, introspect the passing callable, fold the receivers, and on success
return the same callable with only its `__signature__` attribute set. -/
def passes_kws_to_apply (receiver_funcs : List PyCallable) (keep : Bool)
    (passing_func : PyCallable) : Except PyError PyCallable × Nat :=
  if passes_kws_to_assert_ok receiver_funcs then
    match pySignatureE passing_func with
    | none => (Except.error PyError.valueError, 0)
    | some sig =>
      let r := merge_chain sig receiver_funcs keep
      (Except.map (fun s => { passing_func with sigAttr := some s }) r.1, r.2)
  else (Except.error PyError.assertionError, 0)

/-- A class, for `super_init_pass_on_kws`: its own `__init__` and the
`__init__`s of its proper ancestors in method-resolution order. -/
structure PyClass where
  selfInit : PyCallable
  ancestorInits : List PyCallable
deriving DecidableEq, Repr

/-- `inspect.getmro(cls)` lists the class itself first, then its ancestors in
method-resolution order; this is the corresponding list of `__init__`s. -/
def getmro_inits (c : PyClass) : List PyCallable :=
  c.selfInit :: c.ancestorInits

/-- The receiver resolved by `super_init_pass_on_kws._func`: the supplied
base's `__init__`, or `inspect.getmro(func)[0].__init__` when none is given
(the head of `getmro` — the class itself; the default never applies since
`getmro_inits` is non-empty). -/
def super_init_receiver (super_base : Option PyClass) (func : PyClass) : PyCallable :=
  match super_base with
  | some b => b.selfInit
  | none => (getmro_inits func).headD func.selfInit

/-- `super_init_pass_on_kws(super_base, keep_from_var_kw)` applied to a class:
merge the resolved receiver's `__init__` parameters into the class's own
`__init__` signature and write it onto the initializer's `__signature__`,
returning the class itself. -/
def super_init_pass_on_kws_apply (super_base : Option PyClass) (keep : Bool)
    (func : PyClass) : Except PyError PyClass × Nat :=
  let to_func := super_init_receiver super_base func
  let from_func := func.selfInit
  match pySignatureE from_func with
  | none => (Except.error PyError.valueError, 0)
  | some from_sig =>
    match pySignatureE to_func with
    | none => (Except.error PyError.valueError, 0)
    | some to_sig =>
      match merge_step from_sig to_sig keep with
      | (none, w) => (Except.error PyError.replaceError, w)
      | (some s, w) =>
        (Except.ok { func with selfInit := { from_func with sigAttr := some s } }, w)

/-! Concrete parameters, callables and classes used by the scenario theorems. -/

/-- `self` parameter of the initializers in the constructor-propagation scenario. -/
def pSelf : Param := { name := "self", kind := ParamKind.posOrKw, default := none }

/-- Mandatory parameter `x` shared by `Base.__init__` and `Sub.__init__`. -/
def pX : Param := { name := "x", kind := ParamKind.posOrKw, default := none }

/-- Parameter `y=1` of `Base.__init__`. -/
def pY : Param := { name := "y", kind := ParamKind.posOrKw, default := some 1 }

/-- Parameter `z=2` of `Sub.__init__`. -/
def pZ : Param := { name := "z", kind := ParamKind.posOrKw, default := some 2 }

/-- Variadic-keyword parameter `**kwargs`. -/
def pKwargs : Param := { name := "kwargs", kind := ParamKind.varKw, default := none }

/-- Positional parameter `a`. -/
def pA : Param := { name := "a", kind := ParamKind.posOrKw, default := none }

/-- Variadic-positional parameter `*args`. -/
def pArgs : Param := { name := "args", kind := ParamKind.varPos, default := none }

/-- Parameter `b=1`. -/
def pB : Param := { name := "b", kind := ParamKind.posOrKw, default := some 1 }

/-- Parameter `c=2`. -/
def pC : Param := { name := "c", kind := ParamKind.posOrKw, default := some 2 }

/-- `Base.__init__(self, x, y=1)`. -/
def baseInit : PyCallable :=
  { pyType := PyType.functionType, params := [pSelf, pX, pY], sigAttr := none, behavior := 1 }

/-- `Sub.__init__(self, x, z=2, **kwargs)`. -/
def subInit : PyCallable :=
  { pyType := PyType.functionType, params := [pSelf, pX, pZ, pKwargs], sigAttr := none, behavior := 2 }

/-- Class `Base`. -/
def baseCls : PyClass := { selfInit := baseInit, ancestorInits := [] }

/-- Class `Sub(Base)`: its mro after itself is `[Base]` (plus `object`, irrelevant here). -/
def subCls : PyClass := { selfInit := subInit, ancestorInits := [baseInit] }

/-- Passing callable `f(a, *args, **kwargs)` of the free-function scenario. -/
def fScenario : PyCallable :=
  { pyType := PyType.functionType, params := [pA, pArgs, pKwargs], sigAttr := none, behavior := 3 }

/-- Receiver `g(a, b=1, c=2)` of the free-function scenario. -/
def gScenario : PyCallable :=
  { pyType := PyType.functionType, params := [pA, pB, pC], sigAttr := none, behavior := 4 }

/-- Modelled from the spec: the advertised signature `f(a, *, b=1, c=2, **kwargs)`
that the specification claims for the free-function scenario (parameter `a`
positional, `b` and `c` keyword-only with their defaults, `**kwargs` last, and
no variadic-positional parameter — the spec writes a bare `*`). -/
def specClaimedSigC2 : List Param :=
  [pA,
   { name := "b", kind := ParamKind.kwOnly, default := some 1 },
   { name := "c", kind := ParamKind.kwOnly, default := some 2 },
   pKwargs]

/-- A native (builtin) callable such as `len`, not introspectable. -/
def builtinLen : PyCallable :=
  { pyType := PyType.builtinFunctionType, params := [], sigAttr := none, behavior := 5 }

/-- A plain (introspectable) function object with the given declared
parameters, no `__signature__` set yet, and the given behavior stand-in. -/
def mkFun (ps : List Param) (b : Nat) : PyCallable :=
  { pyType := PyType.functionType, params := ps, sigAttr := none, behavior := b }

/-- A positional-only receiver parameter `p=1` (in Python: `def g(p=1, /)`). -/
def pPosOnlyD : Param := { name := "p", kind := ParamKind.posOnly, default := some 1 }

/-- Parameter `b=1` reclassified to keyword-only, as it appears after a merge. -/
def pBkw : Param := { name := "b", kind := ParamKind.kwOnly, default := some 1 }

/-- Parameter `c=2` reclassified to keyword-only, as it appears after a merge. -/
def pCkw : Param := { name := "c", kind := ParamKind.kwOnly, default := some 2 }

/-- Parameter `y=1` reclassified to keyword-only, as it appears after a merge. -/
def pYkw : Param := { name := "y", kind := ParamKind.kwOnly, default := some 1 }

/-- A receiver parameter named like a variadic-keyword slot: `kwargs=2`. -/
def pKWd : Param := { name := "kwargs", kind := ParamKind.posOrKw, default := some 2 }

/-- Receiver parameter `x=1`. -/
def pXd : Param := { name := "x", kind := ParamKind.posOrKw, default := some 1 }

/-- Parameter `x=1` reclassified to keyword-only, as it appears after a merge. -/
def pXkw : Param := { name := "x", kind := ParamKind.kwOnly, default := some 1 }

/-! Helper lemmas about the mapping operations. -/

lemma mapMem_append (m n : PMap) (k : Option String) :
    mapMem (m ++ n) k = (mapMem m k || mapMem n k) := by
  simp [mapMem, List.any_append]

lemma mapMem_eq_false_iff (m : PMap) (k : Option String) :
    mapMem m k = false ↔ ∀ kv ∈ m, kv.1 ≠ k := by
  simp [mapMem]

lemma initMap_append (xs ys : List Param) :
    initMap (xs ++ ys) = initMap xs ++ initMap ys := by
  simp [initMap]

lemma initMap_length (sig : List Param) : (initMap sig).length = sig.length := by
  simp [initMap]

lemma initMap_keys (sig : List Param) :
    (initMap sig).map Prod.fst = sig.map (fun p => some p.name) := by
  simp [initMap]

lemma mapMem_initMap (sig : List Param) (n : String) :
    mapMem (initMap sig) (some n) = sig.any (fun p => p.name = n) := by
  induction sig with
  | nil => rfl
  | cons p rest ih =>
    simp only [initMap, List.map_cons, mapMem, List.any_cons] at ih ⊢
    rw [ih]
    simp

lemma mapMem_initMap_none (sig : List Param) :
    mapMem (initMap sig) none = false := by
  simp [mapMem, initMap]

lemma scanF_const (m : PMap) (h : ∀ kv ∈ m, ¬(kv.2.map Param.kind = some ParamKind.varKw)) :
    ∀ acc, m.foldl scanF acc = acc := by
  induction m with
  | nil => intro acc; rfl
  | cons kv rest ih =>
    intro acc
    have hkv := h kv (List.mem_cons_self kv rest)
    have hrest : ∀ kv ∈ rest, ¬(kv.2.map Param.kind = some ParamKind.varKw) :=
      fun kv' h' => h kv' (List.mem_cons_of_mem _ h')
    simp only [List.foldl_cons, scanF, if_neg hkv]
    exact ih hrest acc

lemma varKwKeyScan_of_no_varKw (sig : List Param)
    (h : ∀ p ∈ sig, p.kind ≠ ParamKind.varKw) :
    varKwKeyScan (initMap sig) = none := by
  apply scanF_const
  intro kv hkv
  simp only [initMap, List.mem_map] at hkv
  obtain ⟨p, hp, rfl⟩ := hkv
  simp [h p hp]

lemma mapMem_cons_of_mem (kv : Option String × Option Param) (rest : PMap)
    (k : Option String) (h : mapMem rest k = true) : mapMem (kv :: rest) k = true := by
  simp only [mapMem, List.any_cons, Bool.or_eq_true]
  exact Or.inr h

lemma mapMem_cons_self (kv : Option String × Option Param) (rest : PMap) :
    mapMem (kv :: rest) kv.1 = true := by
  simp [mapMem]

lemma scan_mem (m : PMap)
    (h : m.any (fun kv => kv.2.map Param.kind = some ParamKind.varKw) = true) :
    mapMem m (varKwKeyScan m) = true := by
  suffices H : ∀ acc, mapMem m (m.foldl scanF acc) = true by exact H none
  induction m with
  | nil => simp at h
  | cons kv rest ih =>
    intro acc
    by_cases hrest : rest.any (fun kv => kv.2.map Param.kind = some ParamKind.varKw) = true
    · have hmem := ih hrest (scanF acc kv)
      simp only [List.foldl_cons]
      exact mapMem_cons_of_mem kv rest _ hmem
    · have hkv : kv.2.map Param.kind = some ParamKind.varKw := by
        simp only [List.any_cons, Bool.or_eq_true] at h
        rcases h with h | h
        · exact of_decide_eq_true h
        · exact absurd h hrest
      have hs : scanF acc kv = kv.1 := by simp [scanF, hkv]
      have hconst : rest.foldl scanF kv.1 = kv.1 := by
        apply scanF_const
        intro kv' hkv' hc
        exact hrest (List.any_eq_true.mpr ⟨kv', hkv', by simp [hc]⟩)
      simp only [List.foldl_cons, hs, hconst]
      exact mapMem_cons_self kv rest

lemma varKwKeyScan_append_last (xs : PMap) (k : Option String) (p : Param)
    (hp : p.kind = ParamKind.varKw) :
    varKwKeyScan (xs ++ [(k, some p)]) = k := by
  simp [varKwKeyScan, List.foldl_append, scanF, hp]

lemma mapPop_length (m : PMap) (k : Option String) (h : mapMem m k = true) :
    (mapPop m k).2.length + 1 = m.length := by
  induction m with
  | nil => simp [mapMem] at h
  | cons kv rest ih =>
    by_cases hk : kv.1 = k
    · simp [mapPop, hk]
    · have hrest : mapMem rest k = true := by
        simp only [mapMem, List.any_cons, Bool.or_eq_true] at h
        rcases h with h | h
        · exact absurd (of_decide_eq_true h) hk
        · exact h
      simp only [mapPop, if_neg hk, List.length_cons]
      rw [← ih hrest]

lemma mapPop_mem_imp (m : PMap) (k k' : Option String)
    (h : mapMem (mapPop m k).2 k' = true) : mapMem m k' = true := by
  induction m with
  | nil => simpa [mapPop] using h
  | cons kv rest ih =>
    by_cases hk : kv.1 = k
    · simp only [mapPop, if_pos hk] at h
      exact mapMem_cons_of_mem kv rest k' h
    · simp only [mapPop, if_neg hk] at h
      simp only [mapMem, List.any_cons, Bool.or_eq_true] at h ⊢
      rcases h with h | h
      · exact Or.inl h
      · exact Or.inr (ih h)

lemma mapPop_not_mem_self (m : PMap) (k : Option String)
    (hnd : (m.map Prod.fst).Nodup) : mapMem (mapPop m k).2 k = false := by
  induction m with
  | nil => simp [mapPop, mapMem]
  | cons kv rest ih =>
    simp only [List.map_cons, List.nodup_cons] at hnd
    by_cases hk : kv.1 = k
    · simp only [mapPop, if_pos hk]
      rw [mapMem_eq_false_iff]
      intro kv' hkv' he
      have heq : kv.1 = kv'.1 := hk.trans he.symm
      exact hnd.1 (by rw [heq]; exact List.mem_map_of_mem Prod.fst hkv')
    · simp only [mapPop, if_neg hk]
      simp only [mapMem, List.any_cons, Bool.or_eq_true, decide_eq_true_eq]
      rw [Bool.or_eq_false_iff]
      constructor
      · simpa using hk
      · exact ih hnd.2

lemma mapPop_append_last (xs : PMap) (k : Option String) (v : Option Param)
    (h : k ∉ xs.map Prod.fst) : mapPop (xs ++ [(k, v)]) k = (v, xs) := by
  induction xs with
  | nil => simp [mapPop]
  | cons kv rest ih =>
    simp only [List.map_cons, List.mem_cons] at h
    push_neg at h
    have hk : ¬(kv.1 = k) := fun he => h.1 he.symm
    have ih' := ih h.2
    show mapPop (kv :: (rest ++ [(k, v)])) k = (v, kv :: rest)
    simp only [mapPop, if_neg hk, ih']

lemma mapInsert_of_not_mem (m : PMap) (k : Option String) (v : Option Param)
    (h : mapMem m k = false) : mapInsert m k v = m ++ [(k, v)] := by
  simp [mapInsert, h]

lemma mapUpdate_append (m n : PMap)
    (hfresh : ∀ kv ∈ n, mapMem m kv.1 = false)
    (hnd : (n.map Prod.fst).Nodup) : mapUpdate m n = m ++ n := by
  induction n generalizing m with
  | nil => simp [mapUpdate]
  | cons kv rest ih =>
    simp only [List.map_cons, List.nodup_cons] at hnd
    have h1 : mapMem m kv.1 = false := hfresh kv (List.mem_cons_self kv rest)
    have step : mapUpdate m (kv :: rest) = mapUpdate (m ++ [kv]) rest := by
      simp [mapUpdate, mapInsert_of_not_mem m kv.1 kv.2 h1]
    rw [step, ih (m ++ [kv])]
    · simp
    · intro kv' hkv'
      rw [mapMem_append]
      have h2 : mapMem m kv'.1 = false := hfresh kv' (List.mem_cons_of_mem _ hkv')
      have h3 : mapMem [kv] kv'.1 = false := by
        rw [mapMem_eq_false_iff]
        intro kv'' hkv'' he
        simp only [List.mem_singleton] at hkv''
        subst hkv''
        exact hnd.1 (by rw [he]; exact List.mem_map_of_mem Prod.fst hkv')
      simp [h2, h3]
    · exact hnd.2

lemma mapLookup_mapInsert_self (m : PMap) (k : Option String) (v : Option Param) :
    mapLookup (mapInsert m k v) k = some v := by
  by_cases h : mapMem m k = true
  · simp only [mapInsert, h, if_pos]
    induction m with
    | nil => simp [mapMem] at h
    | cons kv rest ih =>
      by_cases hk : kv.1 = k
      · simp [mapLookup, List.find?, hk]
      · have hrest : mapMem rest k = true := by
          simp only [mapMem, List.any_cons, Bool.or_eq_true] at h
          rcases h with h | h
          · exact absurd (of_decide_eq_true h) hk
          · exact h
        have hd : (decide (kv.1 = k)) = false := decide_eq_false hk
        simp only [List.map_cons, if_neg hk]
        simp only [mapLookup, List.find?, hd] at ih ⊢
        exact ih hrest
  · rw [Bool.not_eq_true] at h
    rw [mapInsert_of_not_mem m k v h]
    rw [mapMem_eq_false_iff] at h
    induction m with
    | nil => simp [mapLookup, List.find?]
    | cons kv rest ih =>
      have hk : ¬(kv.1 = k) := h kv (List.mem_cons_self kv rest)
      have hd : (decide (kv.1 = k)) = false := decide_eq_false hk
      simp only [List.cons_append, mapLookup, List.find?, hd]
      exact ih (fun kv' h' => h kv' (List.mem_cons_of_mem _ h'))

lemma mapLookup_append_left (m n : PMap) (k : Option String)
    (h : mapMem m k = true) : mapLookup (m ++ n) k = mapLookup m k := by
  induction m with
  | nil => simp [mapMem] at h
  | cons kv rest ih =>
    by_cases hk : kv.1 = k
    · have hd : (decide (kv.1 = k)) = true := decide_eq_true hk
      simp [mapLookup, List.find?, hd]
    · have hd : (decide (kv.1 = k)) = false := decide_eq_false hk
      have hrest : mapMem rest k = true := by
        simp only [mapMem, List.any_cons, Bool.or_eq_true] at h
        rcases h with h | h
        · exact absurd (of_decide_eq_true h) hk
        · exact h
      simp only [List.cons_append, mapLookup, List.find?, hd]
      exact ih hrest

lemma allSome_map_some (l : List Param) : allSome (l.map some) = some l := by
  induction l with
  | nil => rfl
  | cons p rest ih => simp [allSome, ih]

lemma allSome_of_mem_none (vals : List (Option Param)) (h : none ∈ vals) :
    allSome vals = none := by
  induction vals with
  | nil => simp at h
  | cons v rest ih =>
    match v with
    | none => rfl
    | some p =>
      simp only [List.mem_cons] at h
      rcases h with h | h
      · exact absurd h (by simp)
      · simp [allSome, ih h]

/-! Lemmas about `to_keyword_only`, `toParamsOf` and `workingMap`. -/

lemma to_keyword_only_name (p : Param) : (to_keyword_only p).name = p.name := by
  simp only [to_keyword_only]
  split <;> rfl

lemma to_keyword_only_kind (p : Param) :
    (to_keyword_only p).kind =
      (if p.kind = ParamKind.posOrKw then ParamKind.kwOnly else p.kind) := by
  simp only [to_keyword_only]
  split <;> simp_all

lemma toParamsOf_keys_fresh (recv : List Param) (m : PMap) :
    ∀ kv ∈ toParamsOf recv m, mapMem m kv.1 = false := by
  intro kv hkv
  simp only [toParamsOf, List.mem_map, List.mem_filter] at hkv
  obtain ⟨p, ⟨_, hp⟩, rfl⟩ := hkv
  simp only [Bool.and_eq_true, Bool.not_eq_true'] at hp
  exact hp.2

lemma toParamsOf_keys (recv : List Param) (m : PMap) :
    (toParamsOf recv m).map Prod.fst =
      ((recv.filter (fun p => p.default.isSome && !(mapMem m (some p.name)))).map
        (fun p => some p.name)) := by
  simp [toParamsOf]

lemma toParamsOf_keys_nodup (recv : List Param) (m : PMap)
    (hnd : (recv.map Param.name).Nodup) :
    ((toParamsOf recv m).map Prod.fst).Nodup := by
  rw [toParamsOf_keys]
  have h1 : ((recv.filter (fun p => p.default.isSome && !(mapMem m (some p.name)))).map
      Param.name).Nodup := by
    apply List.Nodup.sublist _ hnd
    exact List.Sublist.map Param.name (List.filter_sublist recv)
  have h2 : ((recv.filter (fun p => p.default.isSome && !(mapMem m (some p.name)))).map
      (fun p => some p.name)) =
      ((recv.filter (fun p => p.default.isSome && !(mapMem m (some p.name)))).map
        Param.name).map some := by
    simp [List.map_map, Function.comp]
  rw [h2]
  exact h1.map (fun a b hab => Option.some.injEq a b ▸ hab)

lemma toParamsOf_mem (recv : List Param) (m : PMap) (p : Param)
    (hp : p ∈ recv) (hd : p.default.isSome = true)
    (hm : mapMem m (some p.name) = false) :
    (some p.name, some (to_keyword_only p)) ∈ toParamsOf recv m := by
  simp only [toParamsOf, List.mem_map]
  refine ⟨p, ?_, rfl⟩
  rw [List.mem_filter]
  exact ⟨hp, by simp [hd, hm]⟩

lemma toParamsOf_length (recv : List Param) (m : PMap)
    (h : ∀ p ∈ recv, mapMem m (some p.name) = false) :
    (toParamsOf recv m).length = (recv.filter (fun p => p.default.isSome)).length := by
  simp only [toParamsOf, List.length_map]
  congr 1
  apply List.filter_congr
  intro p hp
  simp [h p hp]

lemma toParamsOf_values (recv : List Param) (m : PMap) :
    (toParamsOf recv m).map Prod.snd =
      ((recv.filter (fun p => p.default.isSome && !(mapMem m (some p.name)))).map
        (fun p => some (to_keyword_only p))) := by
  simp [toParamsOf]

lemma workingMap_of_no_varKw (sig : List Param)
    (h : ∀ p ∈ sig, p.kind ≠ ParamKind.varKw) :
    workingMap sig = initMap sig ∧ poppedVarKw sig = none := by
  have hscan := varKwKeyScan_of_no_varKw sig h
  have hmem : mapMem (initMap sig) none = false := mapMem_initMap_none sig
  constructor
  · simp [workingMap, popStep, hscan, hmem]
  · simp [poppedVarKw, popStep, hscan, hmem]

lemma workingMap_append_varKw (ps : List Param) (vk : Param)
    (hvk : vk.kind = ParamKind.varKw) (hn : vk.name ∉ ps.map Param.name) :
    varKwKeyScan (initMap (ps ++ [vk])) = some vk.name
    ∧ workingMap (ps ++ [vk]) = initMap ps
    ∧ poppedVarKw (ps ++ [vk]) = some vk := by
  have hinit : initMap (ps ++ [vk]) = initMap ps ++ [(some vk.name, some vk)] := by
    simp [initMap]
  have hscan : varKwKeyScan (initMap (ps ++ [vk])) = some vk.name := by
    rw [hinit]
    exact varKwKeyScan_append_last (initMap ps) (some vk.name) vk hvk
  have hkeys : some vk.name ∉ (initMap ps).map Prod.fst := by
    rw [initMap_keys]
    simp only [List.mem_map]
    rintro ⟨p, hp, he⟩
    exact hn (by rw [← Option.some.injEq p.name vk.name |>.mp he]; exact List.mem_map_of_mem _ hp)
  have hmem : mapMem (initMap (ps ++ [vk])) (some vk.name) = true := by
    rw [hinit, mapMem_append]
    simp [mapMem]
  have hpop : mapPop (initMap (ps ++ [vk])) (some vk.name) = (some vk, initMap ps) := by
    rw [hinit]
    exact mapPop_append_last (initMap ps) (some vk.name) (some vk) hkeys
  refine ⟨hscan, ?_, ?_⟩
  · simp [workingMap, hscan, popStep, hmem, hpop]
  · simp [poppedVarKw, hscan, popStep, hmem, hpop]

lemma workingMap_mem_imp (sig : List Param) (k : Option String)
    (h : mapMem (workingMap sig) k = true) : mapMem (initMap sig) k = true := by
  simp only [workingMap, popStep] at h
  split at h
  · exact mapPop_mem_imp (initMap sig) _ k h
  · exact h

lemma workingMap_length_of_varKw (sig : List Param)
    (h : sig.any (fun p => p.kind = ParamKind.varKw) = true) :
    (workingMap sig).length + 1 = sig.length := by
  have hany : (initMap sig).any (fun kv => kv.2.map Param.kind = some ParamKind.varKw) = true := by
    rw [List.any_eq_true] at h ⊢
    obtain ⟨p, hp, hk⟩ := h
    exact ⟨(some p.name, some p), List.mem_map_of_mem _ hp, by simpa using hk⟩
  have hmem := scan_mem (initMap sig) hany
  have hlen := mapPop_length (initMap sig) (varKwKeyScan (initMap sig)) hmem
  simp only [workingMap, popStep, hmem, if_pos]
  rw [hlen]
  simp [initMap]

/-! Lemmas about CPython's signature validation. -/

lemma runValid_append (st : ParamKind × Bool) (xs ys : List Param) :
    runValid st (xs ++ ys) = (runValid st xs).bind (fun s => runValid s ys) := by
  induction xs generalizing st with
  | nil => simp [runValid]
  | cons p rest ih =>
    simp only [List.cons_append, runValid]
    match validStep st p with
    | none => rfl
    | some st2 => exact ih st2

lemma validStep_fst (st : ParamKind × Bool) (p : Param) (st2 : ParamKind × Bool)
    (h : validStep st p = some st2) : st2.1 = st.1 ∨ st2.1 = p.kind := by
  simp only [validStep] at h
  by_cases h1 : p.kind.ord < st.1.ord
  · rw [if_pos h1] at h
    exact absurd h (by simp)
  · rw [if_neg h1] at h
    set stm := if st.1.ord < p.kind.ord then (p.kind, false) else st with hstm
    have hstm1 : stm.1 = st.1 ∨ stm.1 = p.kind := by
      rw [hstm]
      split
      · exact Or.inr rfl
      · exact Or.inl rfl
    by_cases h2 : p.kind = ParamKind.posOnly ∨ p.kind = ParamKind.posOrKw
    · rw [if_pos h2] at h
      by_cases h3 : p.default.isSome = true
      · rw [if_pos h3] at h
        simp only [Option.some.injEq] at h
        rw [← h]
        exact hstm1
      · rw [if_neg h3] at h
        by_cases h4 : stm.2 = true
        · rw [if_pos h4] at h
          exact absurd h (by simp)
        · rw [if_neg h4] at h
          simp only [Option.some.injEq] at h
          rw [← h]
          exact hstm1
    · rw [if_neg h2] at h
      simp only [Option.some.injEq] at h
      rw [← h]
      exact hstm1

lemma runValid_fst_ne_varKw (l : List Param) (st : ParamKind × Bool)
    (st2 : ParamKind × Bool) (h : runValid st l = some st2)
    (ht : st.1 ≠ ParamKind.varKw) (hl : ∀ p ∈ l, p.kind ≠ ParamKind.varKw) :
    st2.1 ≠ ParamKind.varKw := by
  induction l generalizing st with
  | nil => simp only [runValid, Option.some.injEq] at h; rw [← h]; exact ht
  | cons p rest ih =>
    simp only [runValid] at h
    match hs : validStep st p with
    | none => rw [hs] at h; exact absurd h (by simp)
    | some stm =>
      rw [hs] at h
      have hfst := validStep_fst st p stm hs
      have hm : stm.1 ≠ ParamKind.varKw := by
        rcases hfst with he | he
        · rw [he]; exact ht
        · rw [he]; exact hl p (List.mem_cons_self p rest)
      exact ih stm h hm (fun q hq => hl q (List.mem_cons_of_mem _ hq))

lemma validStep_kwOnly (st : ParamKind × Bool) (p : Param)
    (hp : p.kind = ParamKind.kwOnly) (ht : st.1 ≠ ParamKind.varKw) :
    validStep st p = some (if st.1.ord < p.kind.ord then (p.kind, false) else st) := by
  have hord : ¬(p.kind.ord < st.1.ord) := by
    rw [hp]
    match hst : st.1 with
    | .posOnly | .posOrKw | .varPos | .kwOnly => simp [ParamKind.ord]
    | .varKw => exact absurd hst ht
  simp only [validStep, if_neg hord]
  rw [hp]
  simp [ParamKind.ord]

lemma runValid_kwOnly_list (l : List Param) (st : ParamKind × Bool)
    (hl : ∀ p ∈ l, p.kind = ParamKind.kwOnly) (ht : st.1 ≠ ParamKind.varKw) :
    ∃ st2, runValid st l = some st2 ∧ st2.1 ≠ ParamKind.varKw := by
  induction l generalizing st with
  | nil => exact ⟨st, rfl, ht⟩
  | cons p rest ih =>
    have hp := hl p (List.mem_cons_self p rest)
    have hs := validStep_kwOnly st p hp ht
    have hnext : (if st.1.ord < p.kind.ord then (p.kind, false) else st).1 ≠ ParamKind.varKw := by
      split
      · rw [hp]; simp
      · exact ht
    obtain ⟨st2, h2, h3⟩ :=
      ih (if st.1.ord < p.kind.ord then (p.kind, false) else st)
        (fun q hq => hl q (List.mem_cons_of_mem _ hq)) hnext
    exact ⟨st2, by simp only [runValid, hs, h2], h3⟩

lemma validStep_varKw (st : ParamKind × Bool) (p : Param)
    (hp : p.kind = ParamKind.varKw) :
    ∃ st2, validStep st p = some st2 := by
  have hord : ¬(p.kind.ord < st.1.ord) := by
    rw [hp]
    match st.1 with
    | .posOnly | .posOrKw | .varPos | .kwOnly | .varKw => simp [ParamKind.ord]
  simp only [validStep, if_neg hord]
  rw [hp]
  simp [ParamKind.ord]

/-! Shape lemmas for `eval_sig_kw_params`. -/

lemma toParamsOf_mem_none (recv : List Param) (m : PMap) :
    mapMem (toParamsOf recv m) none = false := by
  rw [mapMem_eq_false_iff]
  intro kv hkv
  simp only [toParamsOf, List.mem_map] at hkv
  obtain ⟨p, _, rfl⟩ := hkv
  simp

lemma eval_warns (sig recv : List Param) (keep : Bool) :
    (eval_sig_kw_params sig recv keep).2 =
      if keep then (if recv.any (fun p => p.kind = ParamKind.varKw) then 0 else 1)
      else 0 := by
  cases keep <;> simp [eval_sig_kw_params]

lemma eval_eq_of_varKw (ps recv : List Param) (vk : Param) (keep : Bool)
    (hvk : vk.kind = ParamKind.varKw) (hn : vk.name ∉ ps.map Param.name)
    (hndR : (recv.map Param.name).Nodup) :
    (eval_sig_kw_params (ps ++ [vk]) recv keep).1 =
      if keep then
        mapInsert (initMap ps ++ toParamsOf recv (initMap ps)) (some vk.name) (some vk)
      else initMap ps ++ toParamsOf recv (initMap ps) := by
  obtain ⟨hscan, hwork, hpopv⟩ := workingMap_append_varKw ps vk hvk hn
  have hupd : mapUpdate (initMap ps) (toParamsOf recv (initMap ps)) =
      initMap ps ++ toParamsOf recv (initMap ps) :=
    mapUpdate_append _ _ (toParamsOf_keys_fresh recv (initMap ps))
      (toParamsOf_keys_nodup recv (initMap ps) hndR)
  cases keep <;>
    simp only [eval_sig_kw_params, hscan, hwork, hpopv, hupd,
      if_true, if_false, Bool.false_eq_true, Bool.true_eq_false]

lemma eval_eq_of_no_varKw (sig recv : List Param) (keep : Bool)
    (h : ∀ p ∈ sig, p.kind ≠ ParamKind.varKw)
    (hndR : (recv.map Param.name).Nodup) :
    (eval_sig_kw_params sig recv keep).1 =
      if keep then (initMap sig ++ toParamsOf recv (initMap sig)) ++ [(none, none)]
      else initMap sig ++ toParamsOf recv (initMap sig) := by
  have hscan := varKwKeyScan_of_no_varKw sig h
  obtain ⟨hwork, hpopv⟩ := workingMap_of_no_varKw sig h
  have hupd : mapUpdate (initMap sig) (toParamsOf recv (initMap sig)) =
      initMap sig ++ toParamsOf recv (initMap sig) :=
    mapUpdate_append _ _ (toParamsOf_keys_fresh recv (initMap sig))
      (toParamsOf_keys_nodup recv (initMap sig) hndR)
  have hmem : mapMem (initMap sig ++ toParamsOf recv (initMap sig)) none = false := by
    rw [mapMem_append, mapMem_initMap_none, toParamsOf_mem_none]
    rfl
  have hins : mapInsert (initMap sig ++ toParamsOf recv (initMap sig)) none none =
      (initMap sig ++ toParamsOf recv (initMap sig)) ++ [(none, none)] :=
    mapInsert_of_not_mem _ none none hmem
  cases keep <;>
    simp only [eval_sig_kw_params, hscan, hwork, hpopv, hupd, hins,
      if_true, if_false, Bool.false_eq_true, Bool.true_eq_false]

lemma mapMem_mapInsert_imp (m : PMap) (k : Option String) (v : Option Param)
    (k' : Option String) (h : mapMem (mapInsert m k v) k' = true) :
    mapMem m k' = true ∨ k' = k := by
  by_cases hm : mapMem m k = true
  · simp only [mapInsert, if_pos hm] at h
    rw [mapMem, List.any_eq_true] at h
    obtain ⟨kv2, hkv2, hp⟩ := h
    rw [List.mem_map] at hkv2
    obtain ⟨kv, hkv, he⟩ := hkv2
    by_cases hkk : kv.1 = k
    · rw [if_pos hkk] at he
      left
      rw [mapMem, List.any_eq_true]
      refine ⟨kv, hkv, ?_⟩
      have h3 : kv2.1 = k' := of_decide_eq_true hp
      rw [← he] at h3
      exact decide_eq_true h3
    · rw [if_neg hkk] at he
      left
      rw [mapMem, List.any_eq_true]
      exact ⟨kv, hkv, he ▸ hp⟩
  · rw [Bool.not_eq_true] at hm
    rw [mapInsert_of_not_mem m k v hm, mapMem_append] at h
    rw [Bool.or_eq_true] at h
    rcases h with h | h
    · exact Or.inl h
    · right
      rw [mapMem, List.any_eq_true] at h
      obtain ⟨kv, hkv, hp⟩ := h
      simp only [List.mem_singleton] at hkv
      subst hkv
      exact (of_decide_eq_true hp).symm

lemma mapMem_mapUpdate_imp (n m : PMap) (k' : Option String)
    (h : mapMem (mapUpdate m n) k' = true) :
    mapMem m k' = true ∨ ∃ kv ∈ n, kv.1 = k' := by
  induction n generalizing m with
  | nil => exact Or.inl h
  | cons kv rest ih =>
    have hstep : mapUpdate m (kv :: rest) = mapUpdate (mapInsert m kv.1 kv.2) rest := by
      simp [mapUpdate]
    rw [hstep] at h
    rcases ih (mapInsert m kv.1 kv.2) h with h1 | h1
    · rcases mapMem_mapInsert_imp m kv.1 kv.2 k' h1 with h2 | h2
      · exact Or.inl h2
      · exact Or.inr ⟨kv, List.mem_cons_self kv rest, h2.symm⟩
    · obtain ⟨kv', hkv', he⟩ := h1
      exact Or.inr ⟨kv', List.mem_cons_of_mem _ hkv', he⟩

lemma eval_keep_no_varKw_shape (sig recv : List Param)
    (h : ∀ p ∈ sig, p.kind ≠ ParamKind.varKw) :
    (eval_sig_kw_params sig recv true).1 =
      mapUpdate (initMap sig) (toParamsOf recv (initMap sig)) ++ [(none, none)] := by
  have hscan := varKwKeyScan_of_no_varKw sig h
  obtain ⟨hwork, hpopv⟩ := workingMap_of_no_varKw sig h
  have hmemnone : mapMem (mapUpdate (initMap sig) (toParamsOf recv (initMap sig))) none
      = false := by
    rw [Bool.eq_false_iff]
    intro hmem
    rcases mapMem_mapUpdate_imp _ _ none hmem with h1 | h1
    · rw [mapMem_initMap_none sig] at h1
      exact Bool.false_ne_true h1
    · obtain ⟨kv, hkv, he⟩ := h1
      have := (mapMem_eq_false_iff _ none).mp (toParamsOf_mem_none recv (initMap sig)) kv hkv
      exact this he
  simp only [eval_sig_kw_params, hscan, hwork, hpopv, if_true]
  exact mapInsert_of_not_mem _ none none hmemnone

lemma initMap_values (sig : List Param) : (initMap sig).map Prod.snd = sig.map some := by
  simp [initMap]

lemma filter_names_nodup (recv : List Param) (q : Param → Bool)
    (hndR : (recv.map Param.name).Nodup) :
    ((recv.filter q).map Param.name).Nodup :=
  List.Nodup.sublist (List.Sublist.map Param.name (List.filter_sublist recv)) hndR

lemma passes_kws_to_apply_single (rs ps : List Param) (keep : Bool) (b br : Nat) :
    passes_kws_to_apply [mkFun rs br] keep (mkFun ps b) =
      (match (merge_step ps rs keep).1 with
        | none => Except.error PyError.replaceError
        | some s => Except.ok { mkFun ps b with sigAttr := some s },
       (merge_step ps rs keep).2) := by
  rcases hms : merge_step ps rs keep with ⟨os, w⟩
  cases os with
  | none =>
    simp [passes_kws_to_apply, passes_kws_to_assert_ok, packedArgsType, pySignatureE,
      mkFun, merge_chain, hms, Except.map]
  | some s =>
    simp [passes_kws_to_apply, passes_kws_to_assert_ok, packedArgsType, pySignatureE,
      mkFun, merge_chain, hms, Except.map]

/-! The claim theorems. -/

/-- C9: with `keep_from_var_kw` true and a passing callable with no
variadic-keyword parameter, `eval_sig_kw_params` stores a `None` key mapped to
a `None` value (`passing_params[var_kw_key] = var_kw` with both references
still `None`), so rebuilding the signature from the mapping's values fails and
the decorated callable is never produced. -/
theorem C9_keep_without_var_kw_inserts_none (sig recv : List Param)
    (h : ∀ p ∈ sig, p.kind ≠ ParamKind.varKw) :
    ((none, none) ∈ (eval_sig_kw_params sig recv true).1)
    ∧ sig_replace (eval_sig_kw_params sig recv true).1 = none
    ∧ (merge_step sig recv true).1 = none
    ∧ ∀ b br : Nat,
        (passes_kws_to_apply [mkFun recv br] true (mkFun sig b)).1 =
          Except.error PyError.replaceError := by
  have hshape := eval_keep_no_varKw_shape sig recv h
  have hmem : (none, none) ∈ (eval_sig_kw_params sig recv true).1 := by
    rw [hshape]
    exact List.mem_append_right _ (List.mem_singleton.mpr rfl)
  have hnone : sig_replace (eval_sig_kw_params sig recv true).1 = none := by
    have hv : (none : Option Param) ∈ ((eval_sig_kw_params sig recv true).1.map Prod.snd) := by
      rw [List.mem_map]
      exact ⟨(none, none), hmem, rfl⟩
    simp only [sig_replace, allSome_of_mem_none _ hv]
  have hstep : (merge_step sig recv true).1 = none := hnone
  refine ⟨hmem, hnone, hstep, ?_⟩
  intro b br
  rw [passes_kws_to_apply_single recv sig true b br]
  simp [hstep]

/-- C9 witness: a concrete passing callable `f(a)` without a variadic-keyword
parameter and receiver `g(b=1)` exhibit the inserted `None` entry and the
failed rebuild. -/
theorem C9_keep_without_var_kw_inserts_none_witness :
    (∀ p ∈ [pA], p.kind ≠ ParamKind.varKw)
    ∧ (((none, none) ∈ (eval_sig_kw_params [pA] [pB] true).1)
        ∧ sig_replace (eval_sig_kw_params [pA] [pB] true).1 = none
        ∧ (merge_step [pA] [pB] true).1 = none
        ∧ ∀ b br : Nat,
            (passes_kws_to_apply [mkFun [pB] br] true (mkFun [pA] b)).1 =
              Except.error PyError.replaceError) :=
  ⟨by decide, C9_keep_without_var_kw_inserts_none [pA] [pB] (by decide)⟩

lemma eval_false_merged_mem (sig recv : List Param) (p : Param)
    (hp : p ∈ recv) (hd : p.default.isSome = true)
    (hm : mapMem (workingMap sig) (some p.name) = false)
    (hndR : (recv.map Param.name).Nodup) :
    (some p.name, some (to_keyword_only p)) ∈ (eval_sig_kw_params sig recv false).1 := by
  have he : (eval_sig_kw_params sig recv false).1 =
      mapUpdate (workingMap sig) (toParamsOf recv (workingMap sig)) := rfl
  rw [he, mapUpdate_append _ _ (toParamsOf_keys_fresh recv (workingMap sig))
    (toParamsOf_keys_nodup recv (workingMap sig) hndR)]
  exact List.mem_append_right _ (toParamsOf_mem recv (workingMap sig) p hp hd hm)

/-- C4 counterexample: a positional-only receiver parameter with a default
(`def g(p=1, /)`) is merged by `eval_sig_kw_params` but keeps its
positional-only kind in the output mapping — its kind is not keyword-only as
the claim states. -/
theorem C4_counterexample_pos_only_kind_kept :
    mapLookup (eval_sig_kw_params [pA] [pPosOnlyD] false).1 (some "p")
      = some (some pPosOnlyD)
    ∧ pPosOnlyD.kind = ParamKind.posOnly
    ∧ ¬(pPosOnlyD.kind = ParamKind.kwOnly)
    ∧ pPosOnlyD.default.isSome = true := by
  decide

/-- C4 amended: every merged receiver parameter appears in the output mapping
as `to_keyword_only` of itself, and `to_keyword_only` reclassifies exactly the
positional-or-keyword kind to keyword-only, leaving every other kind
(including positional-only with a default) unchanged. -/
theorem C4_amended_merged_kind (sig recv : List Param) (p : Param)
    (hp : p ∈ recv) (hd : p.default.isSome = true)
    (hm : mapMem (workingMap sig) (some p.name) = false)
    (hndR : (recv.map Param.name).Nodup) :
    ((some p.name, some (to_keyword_only p)) ∈ (eval_sig_kw_params sig recv false).1)
    ∧ (to_keyword_only p).kind =
        (if p.kind = ParamKind.posOrKw then ParamKind.kwOnly else p.kind) :=
  ⟨eval_false_merged_mem sig recv p hp hd hm hndR, to_keyword_only_kind p⟩

/-- C4 witness: the amended statement instantiated at passing `f(a)` and the
positional-only receiver parameter `p=1`. -/
theorem C4_amended_merged_kind_witness :
    (pPosOnlyD ∈ [pPosOnlyD] ∧ mapMem (workingMap [pA]) (some "p") = false)
    ∧ (((some pPosOnlyD.name, some (to_keyword_only pPosOnlyD)) ∈
          (eval_sig_kw_params [pA] [pPosOnlyD] false).1)
        ∧ (to_keyword_only pPosOnlyD).kind =
            (if pPosOnlyD.kind = ParamKind.posOrKw then ParamKind.kwOnly
             else pPosOnlyD.kind)) :=
  ⟨⟨by decide, by decide⟩,
   C4_amended_merged_kind [pA] [pPosOnlyD] pPosOnlyD (by decide) (by decide)
     (by decide) (by decide)⟩

/-- C10: a receiver parameter with a default whose name equals the passing
callable's variadic-keyword parameter name is not blocked — the membership
check runs after the variadic-keyword entry was popped — so it is merged in;
with `keep_from_var_kw` true the re-inserted variadic-keyword parameter then
overwrites it in place. -/
theorem C10_var_kw_name_not_blocking (ps : List Param) (vk r : Param) (recv : List Param)
    (hvk : vk.kind = ParamKind.varKw)
    (hnd : ((ps ++ [vk]).map Param.name).Nodup)
    (hr : r ∈ recv) (hrn : r.name = vk.name) (hrd : r.default.isSome = true)
    (hndR : (recv.map Param.name).Nodup) :
    ((some vk.name, some (to_keyword_only r)) ∈
        (eval_sig_kw_params (ps ++ [vk]) recv false).1)
    ∧ mapLookup (eval_sig_kw_params (ps ++ [vk]) recv true).1 (some vk.name)
        = some (some vk) := by
  have hn : vk.name ∉ ps.map Param.name := by
    rw [List.map_append, List.nodup_append] at hnd
    intro hmem
    exact hnd.2.2 hmem (by simp)
  obtain ⟨hscan, hwork, hpopv⟩ := workingMap_append_varKw ps vk hvk hn
  constructor
  · have hm : mapMem (workingMap (ps ++ [vk])) (some r.name) = false := by
      rw [hwork, hrn, mapMem_initMap]
      rw [List.any_eq_false]
      intro p hp hc
      exact hn (of_decide_eq_true hc ▸ List.mem_map_of_mem Param.name hp)
    have := eval_false_merged_mem (ps ++ [vk]) recv r hr hrd hm hndR
    rwa [hrn] at this
  · rw [eval_eq_of_varKw ps recv vk true hvk hn hndR]
    simp only [if_true]
    exact mapLookup_mapInsert_self _ (some vk.name) (some vk)

/-- C10 witness: passing `f(a, **kwargs)` and a receiver declaring `kwargs=2`
with a default show the merge-then-overwrite behavior concretely. -/
theorem C10_var_kw_name_not_blocking_witness :
    (pKwargs.kind = ParamKind.varKw ∧ pKWd.name = pKwargs.name)
    ∧ (((some pKwargs.name, some (to_keyword_only pKWd)) ∈
          (eval_sig_kw_params ([pA] ++ [pKwargs]) [pKWd] false).1)
        ∧ mapLookup (eval_sig_kw_params ([pA] ++ [pKwargs]) [pKWd] true).1
            (some pKwargs.name) = some (some pKwargs)) :=
  ⟨⟨by decide, by decide⟩,
   C10_var_kw_name_not_blocking [pA] pKwargs pKWd [pKWd] (by decide) (by decide)
     (by decide) (by decide) (by decide) (by decide)⟩

/-- C5 counterexample: passing `f(a, **kwargs)` (2 parameters) and receiver
`g(b=1)` (1 defaulted parameter) have disjoint names, yet the decorated
signature has 2 parameters, not 2 + 1 = 3: the variadic-keyword parameter is
dropped because `keep_from_var_kw` defaults to false. -/
theorem C5_counterexample_var_kw_dropped :
    passes_kws_to_apply [mkFun [pB] 8] false (mkFun [pA, pKwargs] 7)
      = (Except.ok { mkFun [pA, pKwargs] 7 with
          sigAttr := some [pA, { name := "b", kind := ParamKind.kwOnly, default := some 1 }] }, 0)
    ∧ [pA, { name := "b", kind := ParamKind.kwOnly, default := some 1 }].length ≠
        [pA, pKwargs].length + ([pB].filter (fun p => p.default.isSome)).length := by
  exact ⟨rfl, by decide⟩

/-- C5 amended: for disjoint names the merged mapping's size is
passing-count plus receiver-default-count, adjusted for the variadic-keyword
slot: when the passing callable has no variadic-keyword parameter the sum is
exact (plus one `None` placeholder entry when `keep_from_var_kw` is true);
when its signature ends in a variadic-keyword parameter, that parameter is
removed, and re-appended only when `keep_from_var_kw` is true. -/
theorem C5_amended_merged_count :
    (∀ (sig recv : List Param) (keep : Bool),
      (∀ p ∈ sig, p.kind ≠ ParamKind.varKw) →
      (∀ r ∈ recv, ∀ q ∈ sig, r.name ≠ q.name) →
      ((recv.map Param.name).Nodup) →
      (eval_sig_kw_params sig recv keep).1.length =
        sig.length + (recv.filter (fun p => p.default.isSome)).length
          + (if keep then 1 else 0))
    ∧ (∀ (ps : List Param) (vk : Param) (recv : List Param) (keep : Bool),
      vk.kind = ParamKind.varKw →
      (((ps ++ [vk]).map Param.name).Nodup) →
      (∀ r ∈ recv, ∀ q ∈ ps ++ [vk], r.name ≠ q.name) →
      ((recv.map Param.name).Nodup) →
      (eval_sig_kw_params (ps ++ [vk]) recv keep).1.length + 1 =
        (ps ++ [vk]).length + (recv.filter (fun p => p.default.isSome)).length
          + (if keep then 1 else 0)) := by
  constructor
  · intro sig recv keep hnoVar hdisj hndR
    have hmem : ∀ p ∈ recv, mapMem (initMap sig) (some p.name) = false := by
      intro p hp
      rw [mapMem_initMap, List.any_eq_false]
      intro q hq hc
      exact hdisj p hp q hq (of_decide_eq_true hc).symm
    rw [eval_eq_of_no_varKw sig recv keep hnoVar hndR]
    have hlen := toParamsOf_length recv (initMap sig) hmem
    cases keep
    · simp [List.length_append, hlen, initMap_length]
    · simp [List.length_append, hlen, initMap_length]
      omega
  · intro ps vk recv keep hvk hnd hdisj hndR
    have hn : vk.name ∉ ps.map Param.name := by
      rw [List.map_append, List.nodup_append] at hnd
      intro hmem
      exact hnd.2.2 hmem (by simp)
    have hmem : ∀ p ∈ recv, mapMem (initMap ps) (some p.name) = false := by
      intro p hp
      rw [mapMem_initMap, List.any_eq_false]
      intro q hq hc
      exact hdisj p hp q (List.mem_append_left _ hq) (of_decide_eq_true hc).symm
    have hlen := toParamsOf_length recv (initMap ps) hmem
    rw [eval_eq_of_varKw ps recv vk keep hvk hn hndR]
    cases keep
    · simp only [if_false, Bool.false_eq_true, List.length_append, hlen, initMap_length,
        List.length_cons, List.length_nil]
      omega
    · have h1 : mapMem (initMap ps) (some vk.name) = false := by
        rw [mapMem_initMap, List.any_eq_false]
        intro q hq hc
        exact hn (of_decide_eq_true hc ▸ List.mem_map_of_mem Param.name hq)
      have h2 : mapMem (toParamsOf recv (initMap ps)) (some vk.name) = false := by
        rw [mapMem_eq_false_iff]
        intro kv hkv he
        simp only [toParamsOf, List.mem_map, List.mem_filter] at hkv
        obtain ⟨q, ⟨hq, _⟩, rfl⟩ := hkv
        have : q.name = vk.name := by simpa using he
        exact hdisj q hq vk (List.mem_append_right _ (by simp)) this
      have hins : mapInsert (initMap ps ++ toParamsOf recv (initMap ps))
          (some vk.name) (some vk)
          = (initMap ps ++ toParamsOf recv (initMap ps)) ++ [(some vk.name, some vk)] := by
        apply mapInsert_of_not_mem
        rw [mapMem_append, h1, h2]
        rfl
      simp only [if_true, hins]
      simp only [List.length_append, hlen, initMap_length, List.length_cons, List.length_nil]
      omega

/-- C5 witness: the amended count instantiated on both branches with concrete
signatures — `f1(a)` with `g(b=1)` for the no-catch-all branch and
`f2(a, **kwargs)` with `g(b=1)` for the catch-all branch. -/
theorem C5_amended_merged_count_witness :
    ((∀ p ∈ [pA], p.kind ≠ ParamKind.varKw)
      ∧ (eval_sig_kw_params [pA] [pB] false).1.length =
          [pA].length + ([pB].filter (fun p => p.default.isSome)).length + 0)
    ∧ ((eval_sig_kw_params ([pA] ++ [pKwargs]) [pB] false).1.length + 1 =
        ([pA] ++ [pKwargs]).length + ([pB].filter (fun p => p.default.isSome)).length + 0) := by
  refine ⟨⟨by decide, ?_⟩, ?_⟩
  · have h := C5_amended_merged_count.1 [pA] [pB] false (by decide) (by decide) (by decide)
    simpa using h
  · have h := C5_amended_merged_count.2 [pA] pKwargs [pB] false (by decide) (by decide)
      (by decide) (by decide)
    simpa using h

/-- C1: evidence for the constructor-propagation bug.  With no explicit base,
`super_init_pass_on_kws` resolves the receiver as `inspect.getmro(func)[0]`,
which is the decorated class itself, not its first ancestor: for
`Sub(Base)` with `Base.__init__(self, x, y=1)` and
`Sub.__init__(self, x, z=2, **kwargs)`, the advertised signature becomes
`(self, x, z=2)` — `y=1` is absent (and `**kwargs` is dropped).  Supplying
`super_base=Base` explicitly yields the behavior the claim describes, with
`y=1` merged as keyword-only. -/
theorem C1_getmro_head_is_class_itself :
    super_init_receiver none subCls = subCls.selfInit
    ∧ super_init_pass_on_kws_apply none false subCls
        = (Except.ok { subCls with selfInit := { subInit with sigAttr := some [pSelf, pX, pZ] } }, 0)
    ∧ ("y" ∉ [pSelf, pX, pZ].map Param.name)
    ∧ ("kwargs" ∉ [pSelf, pX, pZ].map Param.name)
    ∧ super_init_pass_on_kws_apply (some baseCls) false subCls
        = (Except.ok { subCls with selfInit := { subInit with sigAttr := some [pSelf, pX, pZ, pYkw] } }, 0) :=
  ⟨rfl, rfl, by decide, by decide, rfl⟩

/-- C2 counterexample: for passing `f(a, *args, **kwargs)` and receiver
`g(a, b=1, c=2)`, `passes_kws_to(g)` (with `keep_from_var_kw` at its default
false) produces the advertised signature `f(a, *args, b=1, c=2)`, not the
claimed `f(a, *, b=1, c=2, **kwargs)`: the variadic-keyword parameter is
dropped and the variadic-positional `*args` is retained. -/
theorem C2_counterexample_scenario_signature :
    passes_kws_to_apply [gScenario] false fScenario
      = (Except.ok { fScenario with sigAttr := some [pA, pArgs, pBkw, pCkw] }, 0)
    ∧ [pA, pArgs, pBkw, pCkw] ≠ specClaimedSigC2
    ∧ ("kwargs" ∉ [pA, pArgs, pBkw, pCkw].map Param.name) :=
  ⟨rfl, by decide, by decide⟩

/-- C2 amended: the scenario's merged signature is `f(a, *args, b=1, c=2)` —
`a` and `*args` retained, `b` and `c` merged as keyword-only — with the
variadic-keyword parameter removed; it is retained at the end only when
`keep_from_var_kw` is set to true (which also emits one warning, since `g`
has no variadic-keyword parameter). -/
theorem C2_amended_scenario_signature :
    passes_kws_to_apply [gScenario] false fScenario
      = (Except.ok { fScenario with sigAttr := some [pA, pArgs, pBkw, pCkw] }, 0)
    ∧ passes_kws_to_apply [gScenario] true fScenario
      = (Except.ok { fScenario with sigAttr := some [pA, pArgs, pBkw, pCkw, pKwargs] }, 1) :=
  ⟨rfl, rfl⟩

/-- C3: evidence for the guard bug.  The source's
`assert not isinstance(receiver_funcs, types.BuiltinFunctionType)` tests the
packed argument tuple — never a builtin-function object — so the assertion
passes for every receiver list; a native receiver such as `len` is not
rejected by the assertion, and decoration instead proceeds until
`inspect.signature` raises a ValueError inside the merge loop. -/
theorem C3_builtin_assert_never_fires :
    (∀ receiver_funcs : List PyCallable, passes_kws_to_assert_ok receiver_funcs = true)
    ∧ passes_kws_to_apply [builtinLen] false gScenario = (Except.error PyError.valueError, 0)
    ∧ (passes_kws_to_apply [builtinLen] false gScenario).1 ≠ Except.error PyError.assertionError := by
  refine ⟨fun receiver_funcs => rfl, rfl, ?_⟩
  intro h
  have h0 : Except.error (α := PyCallable) PyError.valueError
      = Except.error PyError.assertionError := h
  injection h0 with h1
  exact PyError.noConfusion h1

/-- C8: whenever decoration succeeds, both entry points hand back the very
callable they were given — same runtime type, same declared parameters, same
behavior — with only the `__signature__` attribute now set; for the
constructor variant the class's ancestor list and its initializer's identity
are likewise untouched, only the initializer's `__signature__` changes. -/
theorem C8_returns_same_callable_only_signature_set :
    (∀ (receiver_funcs : List PyCallable) (keep : Bool) (f f2 : PyCallable),
      (passes_kws_to_apply receiver_funcs keep f).1 = Except.ok f2 →
      f2.pyType = f.pyType ∧ f2.params = f.params ∧ f2.behavior = f.behavior
        ∧ ∃ s, f2.sigAttr = some s)
    ∧ (∀ (super_base : Option PyClass) (keep : Bool) (c c2 : PyClass),
      (super_init_pass_on_kws_apply super_base keep c).1 = Except.ok c2 →
      c2.ancestorInits = c.ancestorInits
        ∧ c2.selfInit.pyType = c.selfInit.pyType
        ∧ c2.selfInit.params = c.selfInit.params
        ∧ c2.selfInit.behavior = c.selfInit.behavior
        ∧ ∃ s, c2.selfInit.sigAttr = some s) := by
  constructor
  · intro receiver_funcs keep f f2 h
    have ha : passes_kws_to_assert_ok receiver_funcs = true := rfl
    simp only [passes_kws_to_apply, ha, if_true] at h
    cases hsig : pySignatureE f with
    | none => rw [hsig] at h; exact absurd h (by simp)
    | some sig =>
      rw [hsig] at h
      dsimp only at h
      cases hch : (merge_chain sig receiver_funcs keep).1 with
      | error e => rw [hch] at h; exact absurd h (by simp [Except.map])
      | ok s =>
        rw [hch] at h
        simp only [Except.map, Except.ok.injEq] at h
        rw [← h]
        exact ⟨rfl, rfl, rfl, s, rfl⟩
  · intro super_base keep c c2 h
    simp only [super_init_pass_on_kws_apply] at h
    cases hfrom : pySignatureE c.selfInit with
    | none => rw [hfrom] at h; exact absurd h (by simp)
    | some from_sig =>
      rw [hfrom] at h
      dsimp only at h
      cases hto : pySignatureE (super_init_receiver super_base c) with
      | none => rw [hto] at h; exact absurd h (by simp)
      | some to_sig =>
        rw [hto] at h
        dsimp only at h
        cases hms : merge_step from_sig to_sig keep with
        | mk os w =>
          rw [hms] at h
          cases os with
          | none => exact absurd h (by simp)
          | some s =>
            simp only [Except.ok.injEq] at h
            rw [← h]
            exact ⟨rfl, rfl, rfl, rfl, s, rfl⟩

/-- C8 witness: the conclusions instantiated concretely — `passes_kws_to`
with no receivers on `g(a, b=1, c=2)`, and `super_init_pass_on_kws` with
`super_base=Base` on `Sub`. -/
theorem C8_returns_same_callable_only_signature_set_witness :
    (({ gScenario with sigAttr := some [pA, pB, pC] } : PyCallable).pyType = gScenario.pyType
      ∧ ({ gScenario with sigAttr := some [pA, pB, pC] } : PyCallable).params = gScenario.params
      ∧ ({ gScenario with sigAttr := some [pA, pB, pC] } : PyCallable).behavior = gScenario.behavior
      ∧ ∃ s, ({ gScenario with sigAttr := some [pA, pB, pC] } : PyCallable).sigAttr = some s)
    ∧ (({ subCls with selfInit := { subInit with sigAttr := some [pSelf, pX, pZ, pYkw] } } : PyClass).ancestorInits = subCls.ancestorInits
      ∧ ({ subCls with selfInit := { subInit with sigAttr := some [pSelf, pX, pZ, pYkw] } } : PyClass).selfInit.pyType = subCls.selfInit.pyType
      ∧ ({ subCls with selfInit := { subInit with sigAttr := some [pSelf, pX, pZ, pYkw] } } : PyClass).selfInit.params = subCls.selfInit.params
      ∧ ({ subCls with selfInit := { subInit with sigAttr := some [pSelf, pX, pZ, pYkw] } } : PyClass).selfInit.behavior = subCls.selfInit.behavior
      ∧ ∃ s, ({ subCls with selfInit := { subInit with sigAttr := some [pSelf, pX, pZ, pYkw] } } : PyClass).selfInit.sigAttr = some s) :=
  ⟨C8_returns_same_callable_only_signature_set.1 [] false gScenario
      { gScenario with sigAttr := some [pA, pB, pC] } rfl,
   C8_returns_same_callable_only_signature_set.2 (some baseCls) false subCls
      { subCls with selfInit := { subInit with sigAttr := some [pSelf, pX, pZ, pYkw] } } rfl⟩

/-- C6 counterexample: with `keep_from_var_kw` true and receiver `g(b=1)`
(no variadic-keyword parameter), decorating passing callable `f(a)` — which
has no variadic-keyword parameter either — emits the one warning but then
fails to rebuild the signature (the mapping holds a `None` placeholder), so
decoration does not succeed as the claim states. -/
theorem C6_counterexample_decoration_fails :
    passes_kws_to_apply [mkFun [pB] 10] true (mkFun [pA] 9)
      = (Except.error PyError.replaceError, 1) := rfl

/-- C6 amended: with `keep_from_var_kw` true and a receiver without a
variadic-keyword parameter, exactly one warning is emitted, and decoration
succeeds provided the passing callable's signature is valid and ends in a
variadic-keyword parameter and every defaulted receiver parameter
reclassifies to keyword-only (positional-or-keyword or keyword-only kind)
under a name distinct from the catch-all's; without a catch-all on the
passing side the rebuild fails instead (see the `None` placeholder). -/
theorem C6_amended_keep_no_receiver_var_kw (ps : List Param) (vk : Param) (recv : List Param)
    (hvk : vk.kind = ParamKind.varKw)
    (hps : ∀ p ∈ ps, p.kind ≠ ParamKind.varKw)
    (hnd : ((ps ++ [vk]).map Param.name).Nodup)
    (hvalid : validateParams (ps ++ [vk]) = true)
    (hndR : (recv.map Param.name).Nodup)
    (hrNoVar : ∀ r ∈ recv, r.kind ≠ ParamKind.varKw)
    (hrKinds : ∀ r ∈ recv, r.default.isSome = true →
      (r.kind = ParamKind.posOrKw ∨ r.kind = ParamKind.kwOnly) ∧ r.name ≠ vk.name) :
    ∃ s, merge_step (ps ++ [vk]) recv true = (some s, 1)
      ∧ ∀ b br : Nat, passes_kws_to_apply [mkFun recv br] true (mkFun (ps ++ [vk]) b)
          = (Except.ok { mkFun (ps ++ [vk]) b with sigAttr := some s }, 1) := by
  have hn : vk.name ∉ ps.map Param.name := by
    rw [List.map_append, List.nodup_append] at hnd
    intro hmem
    exact hnd.2.2 hmem (by simp)
  set cond : Param → Bool :=
    fun p => p.default.isSome && !(mapMem (initMap ps) (some p.name)) with hcond
  set tparams : List Param := (recv.filter cond).map to_keyword_only with htparams
  have htp_values : (toParamsOf recv (initMap ps)).map Prod.snd = tparams.map some := by
    rw [toParamsOf_values, ← hcond, htparams, List.map_map]
    rfl
  have hfilter_mem : ∀ r ∈ recv.filter cond,
      r.default.isSome = true ∧ r ∈ recv := by
    intro r hr
    rw [List.mem_filter] at hr
    refine ⟨?_, hr.1⟩
    have := hr.2
    rw [hcond, Bool.and_eq_true] at this
    exact this.1
  have htparams_kw : ∀ q ∈ tparams, q.kind = ParamKind.kwOnly := by
    intro q hq
    rw [htparams, List.mem_map] at hq
    obtain ⟨r, hr, rfl⟩ := hq
    obtain ⟨hd, hrm⟩ := hfilter_mem r hr
    rcases (hrKinds r hrm hd).1 with hk | hk <;>
      rw [to_keyword_only_kind, hk] <;> simp
  have htparams_names : tparams.map Param.name = (recv.filter cond).map Param.name := by
    rw [htparams, List.map_map]
    exact List.map_congr_left (fun r _ => to_keyword_only_name r)
  -- the merged mapping is an append of disjoint blocks
  have h1 : mapMem (initMap ps) (some vk.name) = false := by
    rw [mapMem_initMap, List.any_eq_false]
    intro q hq hc
    exact hn (of_decide_eq_true hc ▸ List.mem_map_of_mem Param.name hq)
  have h2 : mapMem (toParamsOf recv (initMap ps)) (some vk.name) = false := by
    rw [mapMem_eq_false_iff]
    intro kv hkv he
    simp only [toParamsOf, List.mem_map, List.mem_filter] at hkv
    obtain ⟨r, ⟨hr, hrc⟩, rfl⟩ := hkv
    have hd : r.default.isSome = true := by
      rw [Bool.and_eq_true] at hrc
      exact hrc.1
    have : r.name = vk.name := by simpa using he
    exact (hrKinds r hr hd).2 this
  have hins : mapInsert (initMap ps ++ toParamsOf recv (initMap ps))
      (some vk.name) (some vk)
      = (initMap ps ++ toParamsOf recv (initMap ps)) ++ [(some vk.name, some vk)] := by
    apply mapInsert_of_not_mem
    rw [mapMem_append, h1, h2]
    rfl
  have hmap : (eval_sig_kw_params (ps ++ [vk]) recv true).1
      = (initMap ps ++ toParamsOf recv (initMap ps)) ++ [(some vk.name, some vk)] := by
    rw [eval_eq_of_varKw ps recv vk true hvk hn hndR]
    simp only [if_true]
    exact hins
  -- the values of the mapping
  have hvals : (((initMap ps ++ toParamsOf recv (initMap ps))
        ++ [(some vk.name, some vk)]).map Prod.snd)
      = (ps ++ (tparams ++ [vk])).map some := by
    simp [List.map_append, initMap_values, htp_values]
  -- kind/default validation of the rebuilt parameter list
  have hval_and := hvalid
  rw [validateParams, Bool.and_eq_true] at hval_and
  have hrv0 : (runValid (ParamKind.posOnly, false) (ps ++ [vk])).isSome = true := hval_and.1
  have hnd0 : List.Nodup ((ps ++ [vk]).map Param.name) := of_decide_eq_true hval_and.2
  obtain ⟨st, hst⟩ : ∃ st, runValid (ParamKind.posOnly, false) ps = some st := by
    rw [runValid_append] at hrv0
    cases hps0 : runValid (ParamKind.posOnly, false) ps with
    | none => rw [hps0] at hrv0; simp at hrv0
    | some st => exact ⟨st, rfl⟩
  have hstne : st.1 ≠ ParamKind.varKw := by
    have : ((ParamKind.posOnly, false) : ParamKind × Bool).1 ≠ ParamKind.varKw := by simp
    exact runValid_fst_ne_varKw ps (ParamKind.posOnly, false) st hst this hps
  obtain ⟨st2, hst2, hst2ne⟩ := runValid_kwOnly_list tparams st htparams_kw hstne
  obtain ⟨st3, hst3⟩ := validStep_varKw st2 vk hvk
  have hrv : (runValid (ParamKind.posOnly, false) (ps ++ (tparams ++ [vk]))).isSome = true := by
    have hlast : runValid st2 [vk] = some st3 := by
      simp only [runValid, hst3]
    rw [runValid_append, hst, Option.some_bind, runValid_append, hst2, Option.some_bind, hlast]
    rfl
  -- name uniqueness of the rebuilt parameter list
  have hndps : (ps.map Param.name).Nodup ∧ vk.name ∉ ps.map Param.name := by
    rw [List.map_append, List.nodup_append] at hnd0
    exact ⟨hnd0.1, fun hmem => hnd0.2.2 hmem (by simp)⟩
  have hnd_tp : (tparams.map Param.name).Nodup := by
    rw [htparams_names]
    exact filter_names_nodup recv cond hndR
  have hdisj_ps_tp : ∀ a ∈ ps.map Param.name, a ∉ tparams.map Param.name := by
    intro a ha hb
    rw [htparams_names, List.mem_map] at hb
    obtain ⟨r, hr, rfl⟩ := hb
    rw [List.mem_filter, hcond, Bool.and_eq_true, Bool.not_eq_true'] at hr
    have : mapMem (initMap ps) (some r.name) = true := by
      rw [mapMem_initMap, List.any_eq_true]
      rw [List.mem_map] at ha
      obtain ⟨q, hq, hqe⟩ := ha
      exact ⟨q, hq, decide_eq_true hqe⟩
    rw [hr.2.2] at this
    exact Bool.false_ne_true this
  have hvkn_tp : vk.name ∉ tparams.map Param.name := by
    intro hb
    rw [htparams_names, List.mem_map] at hb
    obtain ⟨r, hr, hre⟩ := hb
    obtain ⟨hd, hrm⟩ := hfilter_mem r hr
    exact (hrKinds r hrm hd).2 hre
  have hnames : List.Nodup ((ps ++ (tparams ++ [vk])).map Param.name) := by
    rw [List.map_append, List.nodup_append]
    refine ⟨hndps.1, ?_, ?_⟩
    · rw [List.map_append, List.nodup_append]
      refine ⟨hnd_tp, List.nodup_singleton vk.name, ?_⟩
      intro a ha hb
      simp only [List.map_cons, List.map_nil, List.mem_singleton] at hb
      subst hb
      exact hvkn_tp ha
    · intro a ha hb
      rw [List.map_append, List.mem_append] at hb
      rcases hb with hb | hb
      · exact hdisj_ps_tp a ha hb
      · simp only [List.map_cons, List.map_nil, List.mem_singleton] at hb
        subst hb
        exact hndps.2 ha
  have hvalid2 : validateParams (ps ++ (tparams ++ [vk])) = true := by
    rw [validateParams, Bool.and_eq_true]
    exact ⟨hrv, decide_eq_true hnames⟩
  -- the rebuild succeeds
  have hrep : sig_replace ((eval_sig_kw_params (ps ++ [vk]) recv true).1)
      = some (ps ++ (tparams ++ [vk])) := by
    rw [sig_replace, hmap, hvals, allSome_map_some]
    dsimp only
    simp [hvalid2]
  -- the single warning
  have hwarn : (eval_sig_kw_params (ps ++ [vk]) recv true).2 = 1 := by
    rw [eval_warns]
    have : recv.any (fun p => p.kind = ParamKind.varKw) = false := by
      rw [List.any_eq_false]
      intro r hr hc
      exact hrNoVar r hr (of_decide_eq_true hc)
    rw [this]
    rfl
  refine ⟨ps ++ (tparams ++ [vk]), ?_, ?_⟩
  · rw [merge_step, hrep, hwarn]
  · intro b br
    rw [passes_kws_to_apply_single]
    rw [merge_step, hrep, hwarn]

/-- C6 witness: the amended statement instantiated at passing `f(a, **kwargs)`
and receiver `g(b=1)` — decoration succeeds with one warning. -/
theorem C6_amended_keep_no_receiver_var_kw_witness :
    (validateParams ([pA] ++ [pKwargs]) = true
      ∧ (∀ r ∈ [pB], r.kind ≠ ParamKind.varKw))
    ∧ ∃ s, merge_step ([pA] ++ [pKwargs]) [pB] true = (some s, 1)
      ∧ ∀ b br : Nat, passes_kws_to_apply [mkFun [pB] br] true (mkFun ([pA] ++ [pKwargs]) b)
          = (Except.ok { mkFun ([pA] ++ [pKwargs]) b with sigAttr := some s }, 1) :=
  ⟨⟨by decide, by decide⟩,
   C6_amended_keep_no_receiver_var_kw [pA] pKwargs [pB] (by decide) (by decide)
     (by decide) (by decide) (by decide) (by decide) (by decide)⟩

/-- C7 counterexample: for passing `f(**kwargs)` with receivers `A(x=1)` then
`B(kwargs=2)`, the name `kwargs` was in the passing callable originally, yet
B's parameter `kwargs=2` is merged into the final signature — the original
variadic-keyword name does not block, because that entry was removed from the
working mapping before the membership test. -/
theorem C7_counterexample_original_name_not_blocked :
    passes_kws_to_apply [mkFun [pXd] 12, mkFun [pKWd] 13] false (mkFun [pKwargs] 11)
      = (Except.ok { mkFun [pKwargs] 11 with
          sigAttr := some [pXkw, { name := "kwargs", kind := ParamKind.kwOnly, default := some 2 }] }, 0)
    ∧ ("kwargs" ∈ [pKwargs].map Param.name)
    ∧ ("kwargs" ∈ [pXkw,
        ({ name := "kwargs", kind := ParamKind.kwOnly, default := some 2 } : Param)].map Param.name) :=
  ⟨rfl, by decide, by decide⟩

/-- C7 amended: receivers are merged in argument order against the threaded
signature — after A's merge produces the signature `sig1`, B is merged
against `sig1` — and at B's step the blocking test is membership in the
working mapping derived from `sig1` (with its variadic-keyword entry popped):
a defaulted B parameter absent from that mapping is included (reclassified
keyword-only), while one present there is blocked, its entry left unchanged.
A name present only as the original passing callable's variadic-keyword
parameter does not block. -/
theorem C7_amended_chain_order_and_blocking (sig A B sig1 : List Param) (p : Param)
    (hA : (merge_step sig A false).1 = some sig1)
    (hp : p ∈ B) (hndB : (B.map Param.name).Nodup) :
    ((merge_chain sig [mkFun A 12, mkFun B 13] false).1 =
        (match (merge_step sig1 B false).1 with
          | none => Except.error PyError.replaceError
          | some s2 => Except.ok s2))
    ∧ (p.default.isSome = true → mapMem (workingMap sig1) (some p.name) = false →
        (some p.name, some (to_keyword_only p)) ∈ (eval_sig_kw_params sig1 B false).1)
    ∧ (mapMem (workingMap sig1) (some p.name) = true →
        mapLookup (eval_sig_kw_params sig1 B false).1 (some p.name)
          = mapLookup (workingMap sig1) (some p.name)) := by
  refine ⟨?_, ?_, ?_⟩
  · have hApair : merge_step sig A false = (some sig1, (merge_step sig A false).2) := by
      rw [← hA]
    have hsigA : pySignatureE (mkFun A 12) = some A := rfl
    have hsigB : pySignatureE (mkFun B 13) = some B := rfl
    simp only [merge_chain, hsigA, hsigB]
    cases hms : merge_step sig1 B false with
    | mk os w2 =>
      rw [hApair]
      dsimp only
      rw [hms]
      cases os with
      | none => rfl
      | some s2 => rfl
  · intro hd hm
    exact eval_false_merged_mem sig1 B p hp hd hm hndB
  · intro hm
    have he : (eval_sig_kw_params sig1 B false).1 =
        mapUpdate (workingMap sig1) (toParamsOf B (workingMap sig1)) := rfl
    rw [he, mapUpdate_append _ _ (toParamsOf_keys_fresh B (workingMap sig1))
      (toParamsOf_keys_nodup B (workingMap sig1) hndB)]
    exact mapLookup_append_left _ _ (some p.name) hm

/-- C7 witness: the amended statement instantiated at `f(**kwargs)`,
`A(x=1)`, `B(kwargs=2)` — B is merged against the signature `(x=1)` produced
by A's merge, and its `kwargs=2` parameter is included there. -/
theorem C7_amended_chain_order_and_blocking_witness :
    ((merge_step [pKwargs] [pXd] false).1 = some [pXkw] ∧ pKWd ∈ [pKWd])
    ∧ (((merge_chain [pKwargs] [mkFun [pXd] 12, mkFun [pKWd] 13] false).1 =
          (match (merge_step [pXkw] [pKWd] false).1 with
            | none => Except.error PyError.replaceError
            | some s2 => Except.ok s2))
        ∧ (pKWd.default.isSome = true → mapMem (workingMap [pXkw]) (some pKWd.name) = false →
            (some pKWd.name, some (to_keyword_only pKWd)) ∈
              (eval_sig_kw_params [pXkw] [pKWd] false).1)
        ∧ (mapMem (workingMap [pXkw]) (some pKWd.name) = true →
            mapLookup (eval_sig_kw_params [pXkw] [pKWd] false).1 (some pKWd.name)
              = mapLookup (workingMap [pXkw]) (some pKWd.name))) :=
  ⟨⟨rfl, by decide⟩,
   C7_amended_chain_order_and_blocking [pKwargs] [pXd] [pKWd] [pXkw] pKWd rfl
     (by decide) (by decide)⟩

end Warg
